import Mathlib

/-!
Verification of the parallel tar archiver core (src/common/mfu_flist_archive.c).

The definitions below are a shallow embedding of the C source: the layout
planner and archive writer of `mfu_flist_archive_create_chunk`, the work-item
machinery of the libcircle engine (`DTAR_encode_operation`,
`DTAR_decode_operation`, `DTAR_enqueue_copy`, `DTAR_perform_copy`), the index
file I/O (`write_entry_index`, `read_entry_index`), the symlink handling of
`encode_header` / `write_header`, the scan-path metadata extraction
(`extract_flist`) and the entry partitioning of `mfu_flist_archive_extract`.
Machine integers are modelled as `Nat`, with an explicit `% 2 ^ 64` at the one
place where unsigned wraparound matters.
-/

namespace MfuArchive

/-- The item types distinguished by the archiver (`mfu_filetype` values that the
create path inspects: regular file, directory, symlink, anything else). -/
inductive FileType where
  | file
  | dir
  | link
  | other
deriving DecidableEq

/-- The return codes `MFU_SUCCESS` / `MFU_FAILURE` used throughout the source. -/
inductive MfuRc where
  | success
  | failure
deriving DecidableEq

/-- One item of the (sorted) input file list, as seen by the layout planner:
its type, its size in bytes (meaningful for regular files), and the number of
bytes `encode_header` reports for its header. -/
structure Entry where
  type : FileType
  size : Nat
  headerSize : Nat
deriving DecidableEq

/-- The rounding of a file size up to the next multiple of 512 bytes, exactly as
computed in the layout loop of `mfu_flist_archive_create_chunk` (lines
1500-1504): `fsize_padded = fsize / 512 * 512; if (fsize_padded < fsize)
fsize_padded += 512;`. -/
def fsize_padded (fsize : Nat) : Nat :=
  let p := fsize / 512 * 512
  if p < fsize then p + 512 else p

/-- The padded content size of an entry: regular files contribute
`fsize_padded`, directories, symlinks and unsupported items contribute no
content bytes. -/
def content_padded (e : Entry) : Nat :=
  match e.type with
  | .file => fsize_padded e.size
  | _ => 0

/-- The value stored in `entry_sizes[idx]` by the layout loop (lines 1474-1517):
header only for directories and symlinks, header plus padded content for regular
files, and the initial 0 for unsupported types. -/
def entry_size (e : Entry) : Nat :=
  match e.type with
  | .dir => e.headerSize
  | .link => e.headerSize
  | .file => e.headerSize + fsize_padded e.size
  | .other => 0

/-- The final value of the running `offset` accumulator on one rank: the sum of
`entry_sizes` over the rank's local list. -/
def local_total (entries : List Entry) : Nat :=
  (entries.map entry_size).sum

/-- `archive_size`: the `MPI_Allreduce` sum of every rank's local `offset`
total (line 1525).  The distributed list is modelled as one list of local
lists, in rank order. -/
def archive_size (rankLists : List (List Entry)) : Nat :=
  (rankLists.map local_total).sum

/-- `final_size = archive_size + 2 * 512`: the size rank 0 truncates and
preallocates the archive file to (lines 1548-1557). -/
def final_size (rankLists : List (List Entry)) : Nat :=
  archive_size rankLists + 2 * 512

/-- The trailer rank 0 writes after the data phase: a 1024-byte buffer of
zeros (`char buf[1024] = {0}` at lines 1695-1699). -/
def trailer_bytes : List Nat :=
  List.replicate 1024 0

/-- The positional offset of the trailer write: `archive_size` (line 1699). -/
def trailer_offset (rankLists : List (List Entry)) : Nat :=
  archive_size rankLists

/-! Entry partitioning of the extractor (`mfu_flist_archive_extract`,
lines 3270-3283). -/

/-- `entries_per_rank = entries / ranks` (line 3271). -/
def entries_per_rank (entries ranks : Nat) : Nat :=
  entries / ranks

/-- `entries_remainder = entries - entries_per_rank * ranks` (line 3272). -/
def entries_remainder (entries ranks : Nat) : Nat :=
  entries - entries_per_rank entries ranks * ranks

/-- `entry_count` for a given rank (lines 3277-3282): the first
`entries_remainder` ranks take one extra entry. -/
def entry_count (entries ranks rank : Nat) : Nat :=
  if rank < entries_remainder entries ranks then
    entries_per_rank entries ranks + 1
  else
    entries_per_rank entries ranks

/-- `entry_start` for a given rank (lines 3277-3282): ranks below the
remainder start at `rank * (per + 1)`, the rest continue after all the
larger blocks. -/
def entry_start (entries ranks rank : Nat) : Nat :=
  if rank < entries_remainder entries ranks then
    rank * (entries_per_rank entries ranks + 1)
  else
    entries_remainder entries ranks * (entries_per_rank entries ranks + 1)
      + (rank - entries_remainder entries ranks) * entries_per_rank entries ranks

/-! The dynamic (libcircle) copy engine: work-item enqueue and processing. -/

/-- `num_chunks = size / chunk_size` in `DTAR_enqueue_copy` (line 545). -/
def num_chunks (size chunk_size : Nat) : Nat :=
  size / chunk_size

/-- The chunk indices enqueued for one regular file by `DTAR_enqueue_copy`
(lines 543-563): one item per full chunk, plus one for the final partial chunk
when `num_chunks * chunk_size < size || num_chunks == 0`. -/
def DTAR_enqueue_copy (size chunk_size : Nat) : List Nat :=
  List.range (num_chunks size chunk_size) ++
    (if num_chunks size chunk_size * chunk_size < size ∨ num_chunks size chunk_size = 0
     then [num_chunks size chunk_size]
     else [])

/-- 2 ^ 64, the modulus of the `uint64_t` arithmetic in `DTAR_perform_copy`. -/
def U64 : Nat := 2 ^ 64

/-- What processing one work item leaves behind: content bytes written to the
archive, zero-padding bytes written, and whether `DTAR_err` was raised. -/
structure CopyResult where
  content_written : Nat
  padding_written : Nat
  err : Bool
deriving DecidableEq

/-- The observable effect of `DTAR_perform_copy` (lines 566-695) on one work
item, assuming every syscall succeeds and the source file holds exactly
`file_size` bytes.  The read loop copies until the chunk is full or the source
hits EOF; `last_chunk = (rem) ? num_chunks : num_chunks - 1` is computed in
`uint64_t`, so the subtraction wraps modulo `2 ^ 64`; the item is flagged as an
error when fewer bytes arrived than `last_expected`; the owner of the last
chunk writes `512 - file_size % 512` padding bytes when that value is neither
0 nor 512. -/
def DTAR_perform_copy (file_size chunk_index chunk_size : Nat) : CopyResult :=
  let in_offset := chunk_size * chunk_index
  let total_bytes_written := min chunk_size (file_size - in_offset)
  let nchunks := file_size / chunk_size
  let rem := file_size - chunk_size * nchunks
  let last_chunk := if rem ≠ 0 then nchunks else (nchunks + U64 - 1) % U64
  let last_expected := if chunk_index = last_chunk then file_size else in_offset + chunk_size
  let last_written := in_offset + total_bytes_written
  let read_err := last_written < last_expected
  let padding := 512 - file_size % 512
  let pad_bytes := if chunk_index = last_chunk ∧ 0 < padding ∧ padding ≠ 512 then padding else 0
  { content_written := total_bytes_written
    padding_written := pad_bytes
    err := read_err }

/-! Work-item string serialization (`DTAR_encode_operation`,
`DTAR_decode_operation`).  Strings are modelled as lists of byte values;
a colon is byte 58, digits are bytes 48-57. -/

/-- `CIRCLE_MAX_STRING_LEN`, the libcircle work-item buffer size (4096 bytes). -/
def CIRCLE_MAX_STRING_LEN : Nat := 4096

/-- The decimal digit bytes of `n`, most significant first, as produced by
`snprintf` with a `%` `PRIu64` or `%d` conversion.  Structural recursion on a
fuel argument so that the definition evaluates by `decide`. -/
def natDigitsAux : Nat → Nat → List Nat
  | 0, _ => []
  | fuel + 1, n =>
    if n < 10 then [48 + n]
    else natDigitsAux fuel (n / 10) ++ [48 + n % 10]

/-- The decimal representation of `n` as a byte list. -/
def natDigits (n : Nat) : List Nat :=
  natDigitsAux (n + 1) n

/-- A decoded work item (`DTAR_operation_t`, lines 42-48). -/
structure DTAR_operation where
  file_size : Nat
  chunk_index : Nat
  offset : Nat
  code : Nat
  operand : List Nat
deriving DecidableEq

/-- `DTAR_encode_operation` (lines 443-470): `snprintf` the work item as
`fsize:chunk_idx:offset:code:len:operand`; the process aborts (modelled as
`none`) when the encoded string does not fit in `CIRCLE_MAX_STRING_LEN`. -/
def DTAR_encode_operation (code : Nat) (operand : List Nat)
    (fsize chunk_idx offset : Nat) : Option (List Nat) :=
  let op := natDigits fsize ++ (58 :: (natDigits chunk_idx ++ (58 :: (natDigits offset ++
      (58 :: (natDigits code ++ (58 :: (natDigits operand.length ++ (58 :: operand)))))))))
  if op.length < CIRCLE_MAX_STRING_LEN then some op else none

/-- One `strtok(.., ":")` step: the token up to the next colon and the rest of
the string after that colon (the fields split here are never empty, so the
leading-delimiter behaviour of `strtok` does not come into play). -/
def tokenSplit (s : List Nat) : List Nat × List Nat :=
  (s.takeWhile (fun b => b ≠ 58), (s.dropWhile (fun b => b ≠ 58)).drop 1)

/-- `sscanf` of an unsigned decimal field: the maximal leading run of digit
bytes, failing (`none`, the code aborts) when there is none. -/
def parseU64 (cs : List Nat) : Option Nat :=
  let ds := cs.takeWhile (fun b => 48 ≤ b && b ≤ 57)
  if ds.isEmpty then none
  else some (ds.foldl (fun acc b => acc * 10 + (b - 48)) 0)

/-- `DTAR_decode_operation` (lines 473-518): tokenize the five numeric fields,
then take the remainder of the buffer as the operand, cut down to the decoded
length by the `operand[op_len] = 0` store. -/
def DTAR_decode_operation (s : List Nat) : Option DTAR_operation :=
  let p1 := tokenSplit s
  let p2 := tokenSplit p1.2
  let p3 := tokenSplit p2.2
  let p4 := tokenSplit p3.2
  let p5 := tokenSplit p4.2
  match parseU64 p1.1, parseU64 p2.1, parseU64 p3.1, parseU64 p4.1, parseU64 p5.1 with
  | some fsize, some chunk, some off, some code, some oplen =>
    let operand := if oplen ≤ p5.2.length then p5.2.take oplen else p5.2
    some ⟨fsize, chunk, off, code, operand⟩
  | _, _, _, _, _ => none

/-! Scan-path metadata extraction (`extract_flist`, lines 2277-2363). -/

/-- The outcome of one `archive_read_next_header` call: a good header, the end
of the archive, or a libarchive error code. -/
inductive ReadResult where
  | ok
  | eof
  | fail (code : Int)
deriving DecidableEq

/-- How `extract_flist` ends: a normal return of an `MFU_` code, or process
termination through `exit(r)`. -/
inductive FlistOutcome where
  | ret (rc : MfuRc)
  | procExit (code : Int)
deriving DecidableEq

/-- The header-read loop of `extract_flist` (lines 2326-2347) over a stream of
read results: `ARCHIVE_EOF` breaks out and the function returns its `rc`
(still `MFU_SUCCESS`, nothing in the loop ever sets it to failure); any other
non-OK result hits `exit(r)` (lines 2335-2338). -/
def extract_flist_reads : List ReadResult → FlistOutcome
  | [] => .ret .success
  | .ok :: rest => extract_flist_reads rest
  | .eof :: _ => .ret .success
  | .fail c :: _ => .procExit c

/-! Symlink target handling in `encode_header` (lines 330-356) and the header
write in `write_header` (lines 402-439). -/

/-- `PATH_MAX` on Linux. -/
def PATH_MAX : Nat := 4096

/-- The byte count `readlink` places into a buffer of `bufsize` bytes for a
link target of `target_len` bytes: the target, truncated to the buffer. -/
def readlink_bytes (target_len bufsize : Nat) : Nat :=
  min target_len bufsize

/-- What `encode_header` records for a symlink: its return code and the link
target copied into the entry, if any. -/
structure EncodeResult where
  rc : MfuRc
  link_recorded : Option (List Nat)
deriving DecidableEq

/-- The symlink branch of `encode_header` (lines 330-356): `readlink` into a
`PATH_MAX + 1` buffer with `targetsize = PATH_MAX`; if the returned count is
below `targetsize` the target was read whole and is copied into the entry,
otherwise the entry is failed (`rc = MFU_FAILURE`) and no target is set. -/
def encode_header_link (target : List Nat) : EncodeResult :=
  let targetsize := PATH_MAX
  let readlink_rc := readlink_bytes target.length targetsize
  if readlink_rc < targetsize then
    { rc := .success, link_recorded := some (target.take readlink_rc) }
  else
    { rc := .failure, link_recorded := none }

/-- What `write_header` leaves behind for one symlink entry: whether
`DTAR_err` was raised, the return code, and the link target of the header
handed to `pwrite`, if any write was issued at all. -/
structure WriteHeaderResult where
  dtar_err : Bool
  rc : MfuRc
  written_link : Option (List Nat)
deriving DecidableEq

/-- `write_header` on a symlink entry (lines 414-438): when `encode_header`
fails it sets `DTAR_err = 1` and returns `MFU_FAILURE` without writing
anything; otherwise it writes the encoded header (whose link target is the one
`encode_header` recorded) at the entry's offset. -/
def write_header_link (target : List Nat) : WriteHeaderResult :=
  let enc := encode_header_link target
  if enc.rc ≠ MfuRc.success then
    { dtar_err := true, rc := .failure, written_link := none }
  else
    { dtar_err := false, rc := .success, written_link := enc.link_recorded }

/-! Index file I/O (`write_entry_index`, lines 792-895, and
`read_entry_index`, lines 901-1002). -/

/-- Modelled from the spec: `mfu_pack_uint64` lives outside src/ (mfu utility
code of this repository); per the spec it packs one 64-bit value in network
(big-endian) byte order, 8 bytes, most significant first. -/
def mfu_pack_uint64 (x : Nat) : List Nat :=
  [x / 2 ^ 56 % 256, x / 2 ^ 48 % 256, x / 2 ^ 40 % 256, x / 2 ^ 32 % 256,
   x / 2 ^ 24 % 256, x / 2 ^ 16 % 256, x / 2 ^ 8 % 256, x % 256]

/-- Modelled from the spec: `mfu_unpack_uint64` lives outside src/; it decodes
8 bytes in network (big-endian) order into one 64-bit value. -/
def mfu_unpack_uint64 (bytes : List Nat) : Nat :=
  bytes.foldl (fun acc b => acc * 256 + b) 0

/-- The file rank 0 creates in `write_entry_index`: its path, its open mode,
and the bytes handed to `mfu_write`. -/
structure IndexFileWrite where
  path : String
  mode : Nat
  bytes : List Nat
deriving DecidableEq

/-- `write_entry_index` (lines 792-895): the per-rank offset lists are
gathered to rank 0 in rank order (`MPI_Gatherv` with displacements equal to
the exclusive prefix sum of the counts), packed big-endian value by value, and
written to `<archive>.idx`, opened with `O_WRONLY | O_CREAT | O_TRUNC` and
mode 0660. -/
def write_entry_index (file : String) (rankOffsets : List (List Nat)) : IndexFileWrite :=
  let all_offsets := rankOffsets.flatten
  { path := file ++ ".idx"
    mode := 0o660
    bytes := (all_offsets.map mfu_pack_uint64).flatten }

/-- The unpack half of `read_entry_index` (lines 920-999): the entry count is
the index file's size divided by 8, and each 8-byte group is decoded from
network order in file order. -/
def read_index_offsets (bytes : List Nat) : Nat × List Nat :=
  let count := bytes.length / 8
  (count, (List.range count).map (fun i => mfu_unpack_uint64 ((bytes.drop (8 * i)).take 8)))

/-- The outcome of `read_entry_index`: entry count and offsets on success,
`MFU_FAILURE` otherwise. -/
inductive ReadIndexOutcome where
  | done (count : Nat) (offsets : List Nat)
  | failed
deriving DecidableEq

/-- `read_entry_index` as a function of the stat result on `<archive>.idx`
(lines 920-973): when the stat fails — the file is absent — `have_index` is
cleared without raising any error and the function returns `MFU_FAILURE`;
otherwise the file's bytes are read and unpacked. -/
def read_entry_index (statResult : Option (List Nat)) : ReadIndexOutcome :=
  match statResult with
  | none => .failed
  | some bytes =>
    let co := read_index_offsets bytes
    .done co.1 co.2

/-- The offset-discovery phase of `mfu_flist_archive_extract` (lines
3251-3268): try the index file first; on failure fall back to scanning the
archive (`index_entries`, whose outcome is a parameter here); `have_offsets`
records whether either source produced offsets. -/
structure OffsetsPhase where
  have_index : Bool
  have_offsets : Bool
  entries : Nat
  offsets : List Nat
deriving DecidableEq

/-- The offsets phase: `read_entry_index`, else the scan fallback. -/
def extract_offsets_phase (statResult : Option (List Nat))
    (scan : ReadIndexOutcome) : OffsetsPhase :=
  match read_entry_index statResult with
  | .done c offs => ⟨true, true, c, offs⟩
  | .failed =>
    match scan with
    | .done c offs => ⟨false, true, c, offs⟩
    | .failed => ⟨false, false, 0, []⟩

/-- The failure structure of `mfu_flist_archive_extract` after the offsets
phase (lines 3285-3380): the operation returns `MFU_FAILURE` only when
building the file list or extracting the items fails; whether the index file
was present never enters the return code. -/
def mfu_flist_archive_extract (statResult : Option (List Nat))
    (scan : ReadIndexOutcome) (flistOk extractOk : Bool) : MfuRc :=
  let _phase := extract_offsets_phase statResult scan
  if flistOk = false then .failure
  else if extractOk = false then .failure
  else .success

/-! Theorems. -/

/-- The sum of entry sizes over the flattened distributed list equals the
all-reduce of the per-rank totals. -/
theorem archive_size_eq_sum (rankLists : List (List Entry)) :
    (rankLists.flatten.map entry_size).sum = archive_size rankLists := by
  induction rankLists with
  | nil => rfl
  | cons a t ih =>
    simp only [List.flatten_cons, List.map_append, List.sum_append, archive_size,
      local_total, List.map_cons, List.sum_cons] at *
    omega

/-- C1: the create path truncates/preallocates the archive to
`archive_size + 1024` bytes, where `archive_size` is the all-reduce sum of
every rank's local entry-size total — the sum of `entry_size` over all
entries — and rank 0 writes exactly 1024 zero bytes at offset `archive_size`
as the trailer, so the total archive size is `Σ entry_size + 1024`. -/
theorem C1_archive_total_size (rankLists : List (List Entry)) :
    final_size rankLists = (rankLists.flatten.map entry_size).sum + 1024 ∧
    trailer_offset rankLists = (rankLists.flatten.map entry_size).sum ∧
    trailer_bytes.length = 1024 ∧
    (∀ b ∈ trailer_bytes, b = 0) := by
  refine ⟨?_, ?_, List.length_replicate .., ?_⟩
  · rw [archive_size_eq_sum]; rfl
  · rw [archive_size_eq_sum]; rfl
  · intro b hb
    exact List.eq_of_mem_replicate hb

/-- Witness of C1 on a concrete two-rank list: a 13-byte file with a 512-byte
header and a directory with a 512-byte header. -/
theorem C1_archive_total_size_witness :
    final_size [[⟨.file, 13, 512⟩], [⟨.dir, 0, 512⟩]] = 2560 ∧
    trailer_offset [[⟨.file, 13, 512⟩], [⟨.dir, 0, 512⟩]] = 1536 := by
  have h := C1_archive_total_size [[⟨.file, 13, 512⟩], [⟨.dir, 0, 512⟩]]
  exact ⟨by rw [h.1]; rfl, by rw [h.2.1]; rfl⟩

/-- The rounding helper satisfies the ceiling characterization. -/
theorem fsize_padded_spec (S : Nat) :
    fsize_padded S = (S + 511) / 512 * 512 ∧ S ≤ fsize_padded S ∧ fsize_padded S - S < 512 := by
  simp only [fsize_padded]
  split <;> omega

/-- C2: for a regular-file entry of size S the planner computes
`content_padded = ceil(S / 512) * 512`, so `content_padded ≥ S` and
`content_padded - S < 512`, and `entry_size = header_size + content_padded`;
directories and symlinks get `content_padded = 0`. -/
theorem C2_content_padded_spec (e : Entry) :
    (e.type = .file →
      content_padded e = (e.size + 511) / 512 * 512 ∧
      e.size ≤ content_padded e ∧
      content_padded e - e.size < 512 ∧
      entry_size e = e.headerSize + content_padded e) ∧
    (e.type = .dir ∨ e.type = .link →
      content_padded e = 0 ∧ entry_size e = e.headerSize + content_padded e) := by
  obtain ⟨ty, S, H⟩ := e
  have hs := fsize_padded_spec S
  cases ty
  case file =>
    refine ⟨fun _ => ⟨hs.1, hs.2.1, hs.2.2, rfl⟩, fun h => ?_⟩
    rcases h with h | h <;> exact absurd h (by simp)
  case dir =>
    exact ⟨fun h => absurd h (by simp), fun _ => ⟨rfl, rfl⟩⟩
  case link =>
    exact ⟨fun h => absurd h (by simp), fun _ => ⟨rfl, rfl⟩⟩
  case other =>
    refine ⟨fun h => absurd h (by simp), fun h => ?_⟩
    rcases h with h | h <;> exact absurd h (by simp)

/-- Witness of C2 on a 700-byte file with a 512-byte header and on a
directory entry. -/
theorem C2_content_padded_spec_witness :
    content_padded ⟨.file, 700, 512⟩ = 1024 ∧
    entry_size ⟨.file, 700, 512⟩ = 1536 ∧
    content_padded ⟨.dir, 0, 512⟩ = 0 := by
  have hf := (C2_content_padded_spec ⟨.file, 700, 512⟩).1 rfl
  have hd := (C2_content_padded_spec ⟨.dir, 0, 512⟩).2 (Or.inl rfl)
  refine ⟨?_, ?_, hd.1⟩
  · rw [hf.1]; rfl
  · rw [hf.2.2.2, hf.1]; rfl

/-- The remainder computed by the extractor is the mathematical `E % R`. -/
theorem entries_remainder_eq_mod (E R : Nat) : entries_remainder E R = E % R := by
  unfold entries_remainder entries_per_rank
  have hdm := Nat.div_add_mod E R
  have hc : E / R * R = R * (E / R) := Nat.mul_comm _ _
  omega

/-- The per-rank counts in terms of `E % R` and `E / R`. -/
theorem entry_count_eq (E R r : Nat) :
    entry_count E R r = if r < E % R then E / R + 1 else E / R := by
  unfold entry_count entries_per_rank
  rw [entries_remainder_eq_mod]

/-- Rank 0 starts at entry 0. -/
theorem entry_start_zero (E R : Nat) : entry_start E R 0 = 0 := by
  unfold entry_start
  split
  · simp
  · have hm : entries_remainder E R = 0 := by omega
    simp [hm]

/-- Consecutive ranks take consecutive blocks: the start of rank `r + 1` is
the end of rank `r`. -/
theorem entry_start_succ (E R r : Nat) :
    entry_start E R (r + 1) = entry_start E R r + entry_count E R r := by
  unfold entry_start entry_count
  by_cases h1 : r + 1 < entries_remainder E R
  · have h2 : r < entries_remainder E R := by omega
    rw [if_pos h1, if_pos h2, if_pos h2]
    ring
  · by_cases h2 : r < entries_remainder E R
    · have h3 : entries_remainder E R = r + 1 := by omega
      rw [if_neg h1, if_pos h2, if_pos h2, h3]
      simp
      ring
    · rw [if_neg h1, if_neg h2, if_neg h2]
      have h4 : r + 1 - entries_remainder E R = (r - entries_remainder E R) + 1 := by omega
      rw [h4]
      ring

/-- The blocks of all `R` ranks exhaust the `E` entries exactly. -/
theorem entry_start_ranks (E R : Nat) (h : 1 ≤ R) : entry_start E R R = E := by
  have hrem := entries_remainder_eq_mod E R
  have hmod : E % R < R := Nat.mod_lt _ (by omega)
  have hdm := Nat.div_add_mod E R
  unfold entry_start entries_per_rank
  rw [hrem]
  rw [if_neg (by omega)]
  generalize hq : E / R = q at *
  generalize hm : E % R = m at *
  obtain ⟨k, hk⟩ := Nat.exists_eq_add_of_le (Nat.le_of_lt hmod)
  subst hk
  have h5 : m + k - m = k := by omega
  rw [h5]
  calc m * (q + 1) + k * q = (m + k) * q + m := by ring
  _ = E := hdm

/-- Starts are monotone in the rank. -/
theorem entry_start_mono (E R : Nat) : Monotone (entry_start E R) := by
  apply monotone_nat_of_le_succ
  intro r
  rw [entry_start_succ]
  exact Nat.le_add_right _ _

/-- Every index below a positive bound of a cumulative function falls in some
block. -/
theorem exists_block_of_lt (f : Nat → Nat) (n i : Nat) (h0 : f 0 = 0) (hi : i < f n) :
    ∃ r, r < n ∧ f r ≤ i ∧ i < f (r + 1) := by
  induction n with
  | zero => omega
  | succ m ih =>
    by_cases hm : f m ≤ i
    · exact ⟨m, Nat.lt_succ_self m, hm, hi⟩
    · obtain ⟨r, hr, h1, h2⟩ := ih (by omega)
      exact ⟨r, by omega, h1, h2⟩

/-- C3: for `E` entries and `R ≥ 1` ranks, each of the first `E mod R` ranks
owns `⌈E/R⌉ = E/R + 1` consecutive entries and every remaining rank owns
`⌊E/R⌋`; the ranges `[start_r, start_r + count_r)` are contiguous in rank
order, pairwise disjoint, and together cover `[0, E)` exactly. -/
theorem C3_entry_partition (E R : Nat) (h : 1 ≤ R) :
    (∀ r, r < E % R → entry_count E R r = E / R + 1) ∧
    (∀ r, E % R ≤ r → entry_count E R r = E / R) ∧
    entry_start E R 0 = 0 ∧
    (∀ r, entry_start E R (r + 1) = entry_start E R r + entry_count E R r) ∧
    entry_start E R R = E ∧
    (∀ r s, r < s → entry_start E R r + entry_count E R r ≤ entry_start E R s) ∧
    (∀ i, i < E →
      ∃ r, r < R ∧ entry_start E R r ≤ i ∧ i < entry_start E R r + entry_count E R r) := by
  refine ⟨?_, ?_, entry_start_zero E R, entry_start_succ E R, entry_start_ranks E R h, ?_, ?_⟩
  · intro r hr
    rw [entry_count_eq, if_pos hr]
  · intro r hr
    rw [entry_count_eq, if_neg (by omega)]
  · intro r s hrs
    rw [← entry_start_succ]
    exact entry_start_mono E R hrs
  · intro i hi
    obtain ⟨r, hr, h1, h2⟩ := exists_block_of_lt (entry_start E R) R i
      (entry_start_zero E R) (by rw [entry_start_ranks E R h]; exact hi)
    exact ⟨r, hr, h1, by rwa [entry_start_succ] at h2⟩

/-- Witness of C3 at `E = 10`, `R = 3`: rank 0 owns 4 entries, ranks 1 and 2
own 3, and the blocks end at entry 10. -/
theorem C3_entry_partition_witness :
    entry_count 10 3 0 = 4 ∧ entry_count 10 3 2 = 3 ∧
    entry_start 10 3 0 = 0 ∧ entry_start 10 3 3 = 10 := by
  have h := C3_entry_partition 10 3 (by decide)
  exact ⟨h.1 0 (by decide), h.2.1 2 (by decide), h.2.2.1, h.2.2.2.2.1⟩

/-- C4: the enqueue side is right — a zero-byte file still gets exactly one
work item (chunk 0) — and processing that item writes zero content bytes, but
`DTAR_perform_copy` then raises the rank's error flag: with `file_size = 0`
the `uint64_t` expression `num_chunks - 1` wraps to `2 ^ 64 - 1`, chunk 0 is
not recognized as the last chunk, `last_expected` becomes `chunk_size`, and
the `last_written < last_expected` check fires.  This refutes the claim that
the item completes without setting the error flag. -/
theorem C4_zero_byte_file_sets_err (C : Nat) (hC : 0 < C) :
    DTAR_enqueue_copy 0 C = [0] ∧
    (DTAR_perform_copy 0 0 C).content_written = 0 ∧
    (DTAR_perform_copy 0 0 C).padding_written = 0 ∧
    (DTAR_perform_copy 0 0 C).err = true := by
  refine ⟨?_, ?_, ?_, ?_⟩
  · simp [DTAR_enqueue_copy, num_chunks]
  · simp [DTAR_perform_copy]
  · simp only [DTAR_perform_copy, U64]
    norm_num
  · simp only [DTAR_perform_copy, U64]
    norm_num
    omega

/-- Witness of C4 at the default-style chunk size 512: the zero-byte file's
single work item is enqueued and its processing sets the error flag. -/
theorem C4_zero_byte_file_sets_err_witness :
    DTAR_enqueue_copy 0 512 = [0] ∧
    (DTAR_perform_copy 0 0 512).content_written = 0 ∧
    (DTAR_perform_copy 0 0 512).padding_written = 0 ∧
    (DTAR_perform_copy 0 0 512).err = true :=
  C4_zero_byte_file_sets_err 512 (by decide)

/-- After any run of good header reads, a failing header read makes
`extract_flist` terminate the process. -/
theorem extract_flist_reads_fail (pre : List ReadResult) (c : Int)
    (hpre : ∀ x ∈ pre, x = ReadResult.ok) :
    extract_flist_reads (pre ++ [ReadResult.fail c]) = .procExit c := by
  induction pre with
  | nil => rfl
  | cons a t ih =>
    have ha : a = ReadResult.ok := hpre a (by simp)
    subst ha
    exact ih (fun x hx => hpre x (by simp [hx]))

/-- C5: when reading the next entry header fails during the scan-path
metadata extraction, `extract_flist` calls `exit(r)` — the outcome is process
termination, not a failure return through the error-collecting collective.
This refutes the claim that the operation returns failure rather than
terminating the process. -/
theorem C5_extract_flist_exits_on_bad_header (pre : List ReadResult) (c : Int)
    (hpre : ∀ x ∈ pre, x = ReadResult.ok) :
    extract_flist_reads (pre ++ [ReadResult.fail c]) = .procExit c ∧
    (∀ rc : MfuRc, FlistOutcome.procExit c ≠ FlistOutcome.ret rc) := by
  refine ⟨extract_flist_reads_fail pre c hpre, ?_⟩
  intro rc h
  exact FlistOutcome.noConfusion h

/-- Witness of C5: two good entries followed by a fatal header read
(libarchive code -30) end in `exit(-30)`, which is not a return of
`MFU_FAILURE`. -/
theorem C5_extract_flist_exits_on_bad_header_witness :
    extract_flist_reads [ReadResult.ok, ReadResult.ok, ReadResult.fail (-30)] =
      FlistOutcome.procExit (-30) ∧
    FlistOutcome.procExit (-30) ≠ FlistOutcome.ret MfuRc.failure := by
  have h := C5_extract_flist_exits_on_bad_header [ReadResult.ok, ReadResult.ok] (-30)
    (by simp)
  exact ⟨h.1, h.2 MfuRc.failure⟩

/-- C6: a symlink whose target does not fit in the `PATH_MAX`-sized target
buffer makes `encode_header` fail (`MFU_FAILURE`, no link target recorded),
and `write_header` then records the error (`DTAR_err = 1`) and writes
nothing; conversely, whenever a header is written its link target is the full
original target, so no truncated target is ever produced. -/
theorem C6_symlink_target_overflow (target : List Nat) :
    (PATH_MAX ≤ target.length →
      (encode_header_link target).rc = .failure ∧
      (encode_header_link target).link_recorded = none ∧
      (write_header_link target).dtar_err = true ∧
      (write_header_link target).rc = .failure ∧
      (write_header_link target).written_link = none) ∧
    (∀ link, (write_header_link target).written_link = some link → link = target) := by
  by_cases h : target.length < PATH_MAX
  · have hmin : readlink_bytes target.length PATH_MAX = target.length :=
      Nat.min_eq_left (Nat.le_of_lt h)
    constructor
    · intro hge
      omega
    · intro link hlink
      simp only [write_header_link, encode_header_link, hmin, if_pos h] at hlink
      simp only [ne_eq, reduceIte, List.take_length] at hlink
      simp_all
  · have hmin : readlink_bytes target.length PATH_MAX = PATH_MAX :=
      Nat.min_eq_right (by omega)
    have hfail : encode_header_link target = ⟨.failure, none⟩ := by
      simp only [encode_header_link, hmin]
      simp
    constructor
    · intro _
      refine ⟨by rw [hfail], by rw [hfail], ?_, ?_, ?_⟩ <;>
        simp [write_header_link, hfail]
    · intro link hlink
      simp [write_header_link, hfail] at hlink

/-- Witness of C6 at a 4096-byte target of letter `a` bytes: encoding fails,
the error flag is raised, and nothing is written. -/
theorem C6_symlink_target_overflow_witness :
    (encode_header_link (List.replicate 4096 97)).rc = .failure ∧
    (write_header_link (List.replicate 4096 97)).dtar_err = true ∧
    (write_header_link (List.replicate 4096 97)).written_link = none := by
  have h := (C6_symlink_target_overflow (List.replicate 4096 97)).1
    (by rw [List.length_replicate]; exact Nat.le_refl 4096)
  exact ⟨h.1, h.2.2.1, h.2.2.2.2⟩

/-- Every packed value takes exactly 8 bytes. -/
theorem mfu_pack_uint64_length (x : Nat) : (mfu_pack_uint64 x).length = 8 := rfl

/-- The packed index buffer is 8 bytes per offset. -/
theorem pack_flatten_length (l : List Nat) :
    ((l.map mfu_pack_uint64).flatten).length = 8 * l.length := by
  induction l with
  | nil => rfl
  | cons a t ih =>
    simp only [List.map_cons, List.flatten_cons, List.length_append,
      mfu_pack_uint64_length, List.length_cons, ih]
    omega

/-- The `i`-th 8-byte group of the packed buffer is the encoding of the `i`-th
offset. -/
theorem pack_flatten_slice (l : List Nat) (i : Nat) (h : i < l.length) :
    ((l.map mfu_pack_uint64).flatten.drop (8 * i)).take 8 =
      mfu_pack_uint64 (l.get ⟨i, h⟩) := by
  induction l generalizing i with
  | nil => simp at h
  | cons a t ih =>
    cases i with
    | zero =>
      simp only [Nat.mul_zero, List.drop_zero, List.map_cons, List.flatten_cons, List.get]
      rw [show (8 : Nat) = (mfu_pack_uint64 a).length from rfl]
      exact List.take_left _ _
    | succ j =>
      have h8 : 8 * (j + 1) = (mfu_pack_uint64 a).length + 8 * j := by
        rw [mfu_pack_uint64_length]; ring
      simp only [List.map_cons, List.flatten_cons, h8, List.get]
      rw [← List.drop_drop, List.drop_left]
      exact ih j (by simpa using h)

/-- Unpacking inverts packing for 64-bit values. -/
theorem unpack_pack_uint64 (x : Nat) (h : x < 2 ^ 64) :
    mfu_unpack_uint64 (mfu_pack_uint64 x) = x := by
  simp only [mfu_pack_uint64, mfu_unpack_uint64, List.foldl]
  omega

/-- Reading back a packed index buffer recovers the count and the offsets. -/
theorem read_index_offsets_pack (l : List Nat) (h : ∀ x ∈ l, x < 2 ^ 64) :
    read_index_offsets ((l.map mfu_pack_uint64).flatten) = (l.length, l) := by
  unfold read_index_offsets
  rw [pack_flatten_length]
  have hc : 8 * l.length / 8 = l.length := by omega
  rw [hc]
  refine congrArg (Prod.mk l.length) ?_
  apply List.ext_get
  · simp
  · intro n h1 h2
    simp only [List.get_eq_getElem, List.getElem_map, List.getElem_range]
    rw [pack_flatten_slice l n h2, unpack_pack_uint64 _ (h _ (List.get_mem l n h2))]
    rfl

/-- C7: the index file written for an archive whose entries carry the gathered
per-rank offset lists is created at `<archive>.idx` with mode 0660 by rank 0;
its contents are exactly the big-endian 64-bit encodings of the global byte
offsets, concatenated in entry order, so its byte length is
`8 * total_entries`, and its `i`-th 8-byte group encodes the `i`-th offset. -/
theorem C7_index_file_layout (file : String) (rankOffsets : List (List Nat)) :
    (write_entry_index file rankOffsets).path = file ++ ".idx" ∧
    (write_entry_index file rankOffsets).mode = 0o660 ∧
    (write_entry_index file rankOffsets).bytes =
      (rankOffsets.flatten.map mfu_pack_uint64).flatten ∧
    (write_entry_index file rankOffsets).bytes.length = 8 * rankOffsets.flatten.length ∧
    (∀ i (h : i < rankOffsets.flatten.length),
      (((write_entry_index file rankOffsets).bytes.drop (8 * i)).take 8) =
        mfu_pack_uint64 (rankOffsets.flatten.get ⟨i, h⟩)) := by
  refine ⟨rfl, rfl, rfl, pack_flatten_length _, ?_⟩
  intro i h
  exact pack_flatten_slice _ i h

/-- Witness of C7 on the archive `a.tar` with offsets 0 and 1536 on two
ranks. -/
theorem C7_index_file_layout_witness :
    (write_entry_index "a.tar" [[0], [1536]]).path = "a.tar.idx" ∧
    (write_entry_index "a.tar" [[0], [1536]]).mode = 0o660 ∧
    (write_entry_index "a.tar" [[0], [1536]]).bytes.length = 16 ∧
    (((write_entry_index "a.tar" [[0], [1536]]).bytes.drop 8).take 8) =
      mfu_pack_uint64 1536 := by
  have h := C7_index_file_layout "a.tar" [[0], [1536]]
  have h8 := h.2.2.2.2 1 (by simp)
  exact ⟨h.1, h.2.1, by rw [h.2.2.2.1]; rfl, h8⟩

/-- C8: writing an index for any array of 64-bit offsets and reading it back
yields the same entry count and the same offset array — the big-endian pack
on write and unpack on read are mutually inverse. -/
theorem C8_index_write_read_roundtrip (file : String) (rankOffsets : List (List Nat))
    (h : ∀ x ∈ rankOffsets.flatten, x < 2 ^ 64) :
    read_index_offsets (write_entry_index file rankOffsets).bytes =
      (rankOffsets.flatten.length, rankOffsets.flatten) :=
  read_index_offsets_pack _ h

/-- Witness of C8 on the offsets 0 and 1536. -/
theorem C8_index_write_read_roundtrip_witness :
    read_index_offsets (write_entry_index "a.tar" [[0, 1536]]).bytes = (2, [0, 1536]) := by
  rw [C8_index_write_read_roundtrip "a.tar" [[0, 1536]] (by decide)]
  rfl

/-- C9: when `<archive>.idx` does not exist (the stat fails),
`read_entry_index` returns `MFU_FAILURE`; the extract path then takes its
offsets from the archive scan, and with the remaining phases succeeding the
operation returns `MFU_SUCCESS` — absence of the index never by itself makes
extraction fail. -/
theorem C9_missing_index_scan_fallback (scanCount : Nat) (scanOffsets : List Nat)
    (scan : ReadIndexOutcome) (flistOk extractOk : Bool)
    (hf : flistOk = true) (he : extractOk = true) :
    read_entry_index none = .failed ∧
    (extract_offsets_phase none (.done scanCount scanOffsets)).have_index = false ∧
    (extract_offsets_phase none (.done scanCount scanOffsets)).have_offsets = true ∧
    (extract_offsets_phase none (.done scanCount scanOffsets)).entries = scanCount ∧
    (extract_offsets_phase none (.done scanCount scanOffsets)).offsets = scanOffsets ∧
    mfu_flist_archive_extract none scan flistOk extractOk = .success := by
  subst hf
  subst he
  exact ⟨rfl, rfl, rfl, rfl, rfl, rfl⟩

/-- Witness of C9: with the index file absent, a successful scan of two
entries, and the later phases succeeding, extraction succeeds. -/
theorem C9_missing_index_scan_fallback_witness :
    read_entry_index none = .failed ∧
    (extract_offsets_phase none (.done 2 [0, 1536])).offsets = [0, 1536] ∧
    mfu_flist_archive_extract none (.done 2 [0, 1536]) true true = .success := by
  have h := C9_missing_index_scan_fallback 2 [0, 1536] (.done 2 [0, 1536]) true true rfl rfl
  exact ⟨h.1, h.2.2.2.2.1, h.2.2.2.2.2⟩

/-- Every byte the decimal conversion produces is a digit byte. -/
theorem natDigitsAux_digits (fuel : Nat) :
    ∀ n, n < fuel → ∀ b ∈ natDigitsAux fuel n, 48 ≤ b ∧ b ≤ 57 := by
  induction fuel with
  | zero => intro n h; omega
  | succ m ih =>
    intro n h b hb
    simp only [natDigitsAux] at hb
    split at hb
    · simp at hb; omega
    · rcases List.mem_append.1 hb with h1 | h1
      · exact ih (n / 10) (by omega) b h1
      · simp at h1; omega

/-- The decimal conversion never produces an empty byte string. -/
theorem natDigitsAux_ne_nil (fuel n : Nat) (h : n < fuel) : natDigitsAux fuel n ≠ [] := by
  cases fuel with
  | zero => omega
  | succ m =>
    simp only [natDigitsAux]
    split
    · simp
    · simp

/-- Folding the decimal digits back with base 10 recovers the value. -/
theorem natDigitsAux_foldl (fuel : Nat) :
    ∀ n acc, n < fuel →
      (natDigitsAux fuel n).foldl (fun a b => a * 10 + (b - 48)) acc =
        acc * 10 ^ (natDigitsAux fuel n).length + n := by
  induction fuel with
  | zero => intro n acc h; omega
  | succ m ih =>
    intro n acc h
    simp only [natDigitsAux]
    split
    · simp only [List.foldl_cons, List.foldl_nil, List.length_cons, List.length_nil]
      omega
    · rw [List.foldl_append, ih (n / 10) acc (by omega)]
      simp only [List.foldl_cons, List.foldl_nil, List.length_append, List.length_cons,
        List.length_nil, pow_succ]
      set P := (10 : Nat) ^ (natDigitsAux m (n / 10)).length with hP
      calc (acc * P + n / 10) * 10 + (48 + n % 10 - 48) = acc * P * 10 + n := by omega
      _ = acc * (P * 10) + n := by ring

/-- Digit bytes of a value are in the digit range. -/
theorem natDigits_digit (n : Nat) : ∀ b ∈ natDigits n, 48 ≤ b ∧ b ≤ 57 :=
  natDigitsAux_digits (n + 1) n (Nat.lt_succ_self n)

/-- The digit string of a value is nonempty. -/
theorem natDigits_ne_nil (n : Nat) : natDigits n ≠ [] :=
  natDigitsAux_ne_nil (n + 1) n (Nat.lt_succ_self n)

/-- Scanning the digit string of a value recovers the value. -/
theorem parseU64_natDigits (n : Nat) : parseU64 (natDigits n) = some n := by
  have htw : (natDigits n).takeWhile (fun b => 48 ≤ b && b ≤ 57) = natDigits n := by
    apply List.takeWhile_eq_self_iff.2
    intro b hb
    have h := natDigits_digit n b hb
    simp only [Bool.and_eq_true, decide_eq_true_eq]
    omega
  simp only [parseU64, htw]
  rw [if_neg (by simpa [List.isEmpty_iff] using natDigits_ne_nil n)]
  unfold natDigits
  rw [natDigitsAux_foldl (n + 1) n 0 (Nat.lt_succ_self n)]
  simp

/-- Tokenizing a colon-free field followed by a colon yields the field and
the remainder. -/
theorem tokenSplit_append (ds rest : List Nat) (hds : ∀ b ∈ ds, b ≠ 58) :
    tokenSplit (ds ++ 58 :: rest) = (ds, rest) := by
  unfold tokenSplit
  induction ds with
  | nil => simp
  | cons a t ih =>
    have ha : a ≠ 58 := hds a (by simp)
    have iht := ih (fun b hb => hds b (by simp [hb]))
    have h1 := congrArg Prod.fst iht
    have h2 := congrArg Prod.snd iht
    simp only [ne_eq, decide_not, List.drop_one] at h1 h2
    simp [List.cons_append, List.takeWhile_cons, List.dropWhile_cons, ha, h1, h2]

/-- Tokenizing a digit field followed by a colon yields the field and the
remainder. -/
theorem tokenSplit_digits (n : Nat) (rest : List Nat) :
    tokenSplit (natDigits n ++ 58 :: rest) = (natDigits n, rest) := by
  apply tokenSplit_append
  intro b hb
  have h := natDigits_digit n b hb
  omega

/-- C10: for every operation code, NUL-free operand path, file size, chunk
index, and archive offset whose encoding fits in the libcircle work-item
string, decoding the string produced by `DTAR_encode_operation` with
`DTAR_decode_operation` returns a work structure whose `file_size`,
`chunk_index`, `offset`, `code`, and `operand` fields equal the original
inputs: the colon-separated serialization of work items round-trips. -/
theorem C10_work_item_roundtrip (code fsize chunk_idx offset : Nat) (operand : List Nat)
    (hop : ∀ b ∈ operand, b ≠ 0) (s : List Nat)
    (henc : DTAR_encode_operation code operand fsize chunk_idx offset = some s) :
    DTAR_decode_operation s = some ⟨fsize, chunk_idx, offset, code, operand⟩ := by
  have _hnul := hop
  simp only [DTAR_encode_operation] at henc
  split at henc
  · injection henc with hs
    subst hs
    simp only [DTAR_decode_operation, tokenSplit_digits, parseU64_natDigits]
    rw [if_pos (Nat.le_refl operand.length), List.take_length]
  · exact absurd henc (by simp)

/-- Witness of C10: the work item `5:0:1536:0:1:a` decodes back to file size
5, chunk 0, archive offset 1536, code 0, operand `a`. -/
theorem C10_work_item_roundtrip_witness :
    DTAR_decode_operation [53, 58, 48, 58, 49, 53, 51, 54, 58, 48, 58, 49, 58, 97] =
      some ⟨5, 0, 1536, 0, [97]⟩ :=
  C10_work_item_roundtrip 0 5 0 1536 [97] (by decide)
    [53, 58, 48, 58, 49, 53, 51, 54, 58, 48, 58, 49, 58, 97] (by decide)

end MfuArchive
